import Mathlib

/-!
# Verification of `getSlidingWindow` (TUMTopoTimeSeries2016)

A shallow embedding of the sliding-window (delay-coordinate) embedding
routine `getSlidingWindow` that appears (identically) in
`1-SlidingWindowBasics.ipynb` and `2-PersistentHomology.ipynb`:

```python
def getSlidingWindow(x, dim, Tau, dT):
    N = len(x)
    NWindows = int(np.floor((N-dim*Tau)/dT)) #The number of windows
    if NWindows <= 0:
        print("Error: Tau too large for signal extent")
        return np.zeros((3, dim))
    X = np.zeros((NWindows, dim))
    idx = np.arange(N)
    for i in range(NWindows):
        idxx = dT*i + Tau*np.arange(dim)
        start = int(np.floor(idxx[0]))
        end = int(np.ceil(idxx[-1]))+2
        if end >= len(x):
            X = X[0:i, :]
            break
        X[i, :] = interp.spline(idx[start:end+1], x[start:end+1], idxx)
    return X
```

Real numbers are modelled by `ℚ` (the routine's arithmetic is exact on
rationals; no claim under study depends on floating-point rounding).
The returned value is modelled by a pair of the list of lines printed to
stdout and an `Option` holding the returned matrix (`none` models an
uncaught Python exception: `np.zeros` with a negative dimension raises
`ValueError`; `idxx[0]` with `dim = 0` raises `IndexError`; division by
`dT = 0` followed by `int(...)` raises).

`scipy.interpolate.spline` is an external library routine, not part of
this repository; per the spec it is standard univariate cubic spline
interpolation, modelled here as the natural cubic spline on the given
knots (which in every call of this routine are consecutive integers, so
unit spacing is assumed).  The lattice-exactness facts proved below use
only the interpolation conditions at the knots, which hold for every
standard cubic spline variant.
-/

/-- A matrix, as a list of rows. -/
abbrev Mat : Type := List (List ℚ)

/-- `np.zeros((r, c))` as a list of `r` rows of `c` zeros. -/
def zerosMat (r c : ℕ) : Mat :=
  List.replicate r (List.replicate c (0 : ℚ))

/-- `idx = np.arange(N)`, as rationals. -/
def idxList (N : ℕ) : List ℚ :=
  (List.range N).map (fun (k : ℕ) => (k : ℚ))

/-- `idxx = dT*i + Tau*np.arange(dim)` : the `dim` fractional sample
positions of window `i`. -/
def windowPos (dim : ℕ) (Tau dT : ℚ) (i : ℕ) : List ℚ :=
  (List.range dim).map (fun (j : ℕ) => dT * (i : ℚ) + Tau * (j : ℚ))

/-- `start = int(np.floor(idxx[0]))`. -/
def winStart (dim : ℕ) (Tau dT : ℚ) (i : ℕ) : ℤ :=
  ⌊(windowPos dim Tau dT i).headD 0⌋

/-- `end = int(np.ceil(idxx[-1]))+2` (Python index `-1` is the last
element). -/
def winEnd (dim : ℕ) (Tau dT : ℚ) (i : ℕ) : ℤ :=
  ⌈(windowPos dim Tau dT i).getLastD 0⌉ + 2

/-- Normalisation of one bound of a Python slice `l[a:b]` for a list of
length `len`: a negative bound counts from the end (clamped at `0`), a
nonnegative one is clamped at `len`. -/
def pyBound (len : ℕ) (a : ℤ) : ℕ :=
  if a < 0 then (a + len).toNat else min a.toNat len

/-- Python slice `l[a:b]`. -/
def pySlice (l : List ℚ) (a b : ℤ) : List ℚ :=
  (l.take (pyBound l.length b)).drop (pyBound l.length a)

/-- Forward elimination (Thomas algorithm) for the interior tridiagonal
system `M[k-1] + 4*M[k] + M[k+1] = d[k]` of the natural cubic spline on
a unit-spaced grid; returns the per-row pairs (reduced superdiagonal,
reduced right-hand side), continuing from the pair `prev` of the
previous row. -/
def thomasSweepAux (prev : ℚ × ℚ) : List ℚ → List (ℚ × ℚ)
  | [] => []
  | d :: rest =>
    let denom := 4 - prev.1
    let cur := (1 / denom, (d - prev.2) / denom)
    cur :: thomasSweepAux cur rest

/-- Forward elimination for the whole right-hand-side list. -/
def thomasSweep : List ℚ → List (ℚ × ℚ)
  | [] => []
  | d :: rest =>
    let cur := ((1 : ℚ) / 4, d / 4)
    cur :: thomasSweepAux cur rest

/-- Back substitution of the Thomas algorithm. -/
def thomasBack : List (ℚ × ℚ) → List ℚ
  | [] => []
  | (c, d) :: rest =>
    match thomasBack rest with
    | [] => [d]
    | m :: ms => (d - c * m) :: m :: ms

/-- Second derivatives `M[0], …, M[n-1]` of the natural cubic spline
through values `ys` at unit-spaced knots: `M[0] = M[n-1] = 0` and
`M[k-1] + 4*M[k] + M[k+1] = 6*(ys[k-1] - 2*ys[k] + ys[k+1])` for the
interior knots. -/
def splineM (ys : List ℚ) : List ℚ :=
  let ds := (List.range (ys.length - 2)).map
    (fun k => 6 * (ys.getD k 0 - 2 * ys.getD (k + 1) 0 + ys.getD (k + 2) 0))
  (0 : ℚ) :: (thomasBack (thomasSweep ds) ++ [0])

/-- Evaluation of the natural cubic spline with values `ys` and second
derivatives `Ms` at unit-spaced knots `x0, x0+1, …`, at the point `p`
(the cubic piece index is clamped to the knot range, so points outside
the range are extrapolated by the boundary pieces). -/
def splineEvalAt (x0 : ℚ) (ys Ms : List ℚ) (p : ℚ) : ℚ :=
  if ys.length ≤ 1 then ys.headD 0
  else
    let j := min (⌊p - x0⌋.toNat) (ys.length - 2)
    let t := p - x0 - (j : ℚ)
    let yj := ys.getD j 0
    let dy := ys.getD (j + 1) 0 - yj
    let Mj := Ms.getD j 0
    let Mj1 := Ms.getD (j + 1) 0
    yj + (dy - (2 * Mj + Mj1) / 6) * t + Mj / 2 * t ^ 2 + (Mj1 - Mj) / 6 * t ^ 3

/-- Modelled from the spec: `scipy.interpolate.spline(xk, yk, ps)` — an
external library routine, not part of this repository — is standard
univariate cubic spline interpolation through the knots `(xk, yk)`
evaluated at the points `ps`; modelled as the natural cubic spline, with
the unit knot spacing that every call in this repository has (`xk` is
always a run of consecutive integers, used here through its head). -/
def splineInterp (xk yk : List ℚ) (ps : List ℚ) : List ℚ :=
  ps.map (splineEvalAt (xk.headD 0) yk (splineM yk))

/-- The body of one loop iteration that reaches the interpolation call:
`interp.spline(idx[start:end+1], x[start:end+1], idxx)`. -/
def windowRow (x : List ℚ) (dim : ℕ) (Tau dT : ℚ) (i : ℕ) : List ℚ :=
  let s := winStart dim Tau dT i
  let e := winEnd dim Tau dT i
  splineInterp (pySlice (idxList x.length) s (e + 1)) (pySlice x s (e + 1))
    (windowPos dim Tau dT i)

/-- The `for i in range(NWindows)` loop: starting at window `i` with
`fuel` iterations left, emit rows until the first window whose right
bound `end` reaches `len(x)` (the `break`, which truncates `X` to the
rows already stored). -/
def buildRowsAux (x : List ℚ) (dim : ℕ) (Tau dT : ℚ) (i : ℕ) : ℕ → Mat
  | 0 => []
  | fuel + 1 =>
    if (x.length : ℤ) ≤ winEnd dim Tau dT i then []
    else windowRow x dim Tau dT i :: buildRowsAux x dim Tau dT (i + 1) fuel

/-- `NWindows = int(np.floor((N-dim*Tau)/dT))`. -/
def nWindows (N : ℕ) (dim : ℤ) (Tau dT : ℚ) : ℤ :=
  ⌊((N : ℚ) - (dim : ℚ) * Tau) / dT⌋

/-- The observable outcome of a call: the lines printed to stdout, and
the returned value (`none` models an uncaught exception). -/
structure PyResult where
  output : List String
  value : Option Mat
  deriving DecidableEq

/-- The message printed when `NWindows <= 0`. -/
def tauErrMsg : String := "Error: Tau too large for signal extent"

/-- Shallow embedding of `getSlidingWindow(x, dim, Tau, dT)`.

* `dT = 0` : the float division yields `inf`/`nan` and `int(...)` raises
  before anything is printed — modelled as `none`.
* `NWindows <= 0` : the error line is printed and `np.zeros((3, dim))`
  is returned — a `3 × dim` zero matrix for `dim ≥ 0`, a `ValueError`
  (after the print) for `dim < 0`.
* otherwise, for `dim < 0`, `np.zeros((NWindows, dim))` raises, and for
  `dim = 0` the loop's `idxx[0]` raises `IndexError` on the first
  iteration; for `dim ≥ 1` the loop runs and its rows are returned. -/
def getSlidingWindow (x : List ℚ) (dim : ℤ) (Tau dT : ℚ) : PyResult :=
  if dT = 0 then ⟨[], none⟩
  else if nWindows x.length dim Tau dT ≤ 0 then
    if dim < 0 then ⟨[tauErrMsg], none⟩
    else ⟨[tauErrMsg], some (zerosMat 3 dim.toNat)⟩
  else if dim ≤ 0 then ⟨[], none⟩
  else ⟨[], some (buildRowsAux x dim.toNat Tau dT 0 (nWindows x.length dim Tau dT).toNat)⟩

/-! ## Basic facts about the embedded definitions -/

/-- `⌈a⌉` in terms of `⌊·⌋`, so that concrete ceilings can be computed
by the floor evaluator. -/
lemma ceil_as_floor (a : ℚ) : ⌈a⌉ = -⌊-a⌋ := by
  rw [Int.floor_neg, neg_neg]

lemma windowPos_length (dim : ℕ) (Tau dT : ℚ) (i : ℕ) :
    (windowPos dim Tau dT i).length = dim := by
  rw [windowPos, List.length_map, List.length_range]

lemma windowPos_headD (dim : ℕ) (Tau dT : ℚ) (i : ℕ) (h : 1 ≤ dim) :
    (windowPos dim Tau dT i).headD 0 = dT * (i : ℚ) := by
  obtain ⟨m, rfl⟩ : ∃ m, dim = m + 1 := ⟨dim - 1, by omega⟩
  simp [windowPos, List.range_succ_eq_map]

lemma windowPos_getLastD (dim : ℕ) (Tau dT : ℚ) (i : ℕ) (h : 1 ≤ dim) :
    (windowPos dim Tau dT i).getLastD 0 =
      dT * (i : ℚ) + Tau * ((dim : ℚ) - 1) := by
  obtain ⟨m, rfl⟩ : ∃ m, dim = m + 1 := ⟨dim - 1, by omega⟩
  simp [windowPos, List.range_succ]

lemma winStart_eq (dim : ℕ) (Tau dT : ℚ) (i : ℕ) (h : 1 ≤ dim) :
    winStart dim Tau dT i = ⌊dT * (i : ℚ)⌋ := by
  rw [winStart, windowPos_headD dim Tau dT i h]

lemma winEnd_eq (dim : ℕ) (Tau dT : ℚ) (i : ℕ) (h : 1 ≤ dim) :
    winEnd dim Tau dT i = ⌈dT * (i : ℚ) + Tau * ((dim : ℚ) - 1)⌉ + 2 := by
  rw [winEnd, windowPos_getLastD dim Tau dT i h]

/-- With a positive stride `dT` the right padding bound of a window is
nondecreasing in the window index. -/
lemma winEnd_mono (dim : ℕ) (Tau dT : ℚ) (h : 1 ≤ dim) (hdT : 0 < dT)
    {i i2 : ℕ} (hii : i ≤ i2) :
    winEnd dim Tau dT i ≤ winEnd dim Tau dT i2 := by
  rw [winEnd_eq dim Tau dT i h, winEnd_eq dim Tau dT i2 h]
  have : dT * (i : ℚ) ≤ dT * (i2 : ℚ) := by
    have : (i : ℚ) ≤ (i2 : ℚ) := by exact_mod_cast hii
    nlinarith
  have := Int.ceil_le_ceil (α := ℚ)
    (a := dT * (i : ℚ) + Tau * ((dim : ℚ) - 1))
    (b := dT * (i2 : ℚ) + Tau * ((dim : ℚ) - 1)) (by linarith)
  omega

lemma windowRow_length (x : List ℚ) (dim : ℕ) (Tau dT : ℚ) (i : ℕ) :
    (windowRow x dim Tau dT i).length = dim := by
  rw [windowRow, splineInterp, List.length_map, windowPos_length]

/-- Characterisation of the embedded `for`/`break` loop: the rows it
emits are exactly a contiguous block of windows, stopped either by fuel
running out or by the first window whose right bound reaches the end of
the signal. -/
lemma buildRowsAux_spec (x : List ℚ) (dim : ℕ) (Tau dT : ℚ) :
    ∀ fuel i, ∃ k, k ≤ fuel ∧
      buildRowsAux x dim Tau dT i fuel =
        (List.range k).map (fun m => windowRow x dim Tau dT (i + m)) ∧
      (∀ m < k, winEnd dim Tau dT (i + m) < (x.length : ℤ)) ∧
      (k < fuel → (x.length : ℤ) ≤ winEnd dim Tau dT (i + k)) := by
  intro fuel
  induction fuel with
  | zero => exact fun i => ⟨0, by simp [buildRowsAux]⟩
  | succ fuel ih =>
    intro i
    by_cases hstop : (x.length : ℤ) ≤ winEnd dim Tau dT i
    · refine ⟨0, by omega, ?_, by omega, fun _ => by simpa using hstop⟩
      simp [buildRowsAux, if_pos hstop]
    · obtain ⟨k, hk, heq, hlt, hstop2⟩ := ih (i + 1)
      refine ⟨k + 1, by omega, ?_, ?_, ?_⟩
      · rw [buildRowsAux, if_neg hstop, heq, List.range_succ_eq_map,
          List.map_cons, List.map_map]
        congr 1
        refine List.map_congr_left (fun a ha => ?_)
        simp only [Function.comp_apply]
        congr 1
        omega
      · intro m hm
        rcases m with _ | m
        · simpa using lt_of_not_le hstop
        · have := hlt m (by omega)
          convert this using 2
          omega
      · intro hks
        have := hstop2 (by omega)
        convert this using 2
        omega

lemma buildRowsAux_length_le (x : List ℚ) (dim : ℕ) (Tau dT : ℚ)
    (fuel i : ℕ) : (buildRowsAux x dim Tau dT i fuel).length ≤ fuel := by
  obtain ⟨k, hk, heq, -, -⟩ := buildRowsAux_spec x dim Tau dT fuel i
  simp [heq, hk]

lemma headD_eq_getD (l : List ℚ) (d : ℚ) : l.headD d = l.getD 0 d := by
  cases l <;> rfl

lemma pyBound_of_nonneg (len : ℕ) (a : ℤ) (h0 : 0 ≤ a) (hlen : a ≤ len) :
    pyBound len a = a.toNat := by
  rw [pyBound, if_neg (by omega)]
  omega

/-- An in-range Python slice `l[a:b]` is the segment of `l` from index
`a` (inclusive) to `b` (exclusive). -/
lemma pySlice_eq_map (l : List ℚ) (a b : ℤ) (h0 : 0 ≤ a) (hab : a ≤ b)
    (hb : b ≤ l.length) :
    pySlice l a b =
      (List.range (b - a).toNat).map (fun m => l.getD (a.toNat + m) 0) := by
  rw [pySlice, pyBound_of_nonneg l.length a h0 (by omega),
    pyBound_of_nonneg l.length b (by omega) hb]
  apply List.ext_getElem
  · simp only [List.length_drop, List.length_take, List.length_map,
      List.length_range]
    omega
  · intro m hm hm2
    have hmlt : b.toNat - a.toNat ≤ l.length := by omega
    have hm3 : a.toNat + m < l.length := by
      simp only [List.length_drop, List.length_take] at hm
      omega
    rw [List.getElem_drop, List.getElem_take, List.getElem_map,
      List.getElem_range, List.getD_eq_getElem l 0 hm3]

lemma pySlice_length (l : List ℚ) (a b : ℤ) (h0 : 0 ≤ a) (hab : a ≤ b)
    (hb : b ≤ l.length) :
    (pySlice l a b).length = (b - a).toNat := by
  rw [pySlice_eq_map l a b h0 hab hb, List.length_map, List.length_range]

lemma pySlice_getD (l : List ℚ) (a b : ℤ) (h0 : 0 ≤ a) (hab : a ≤ b)
    (hb : b ≤ l.length) (m : ℕ) (hm : m < (b - a).toNat) :
    (pySlice l a b).getD m 0 = l.getD (a.toNat + m) 0 := by
  rw [pySlice_eq_map l a b h0 hab hb]
  rw [List.getD_eq_getElem _ 0 (by simpa using hm)]
  rw [List.getElem_map, List.getElem_range]

lemma pySlice_headD (l : List ℚ) (a b : ℤ) (h0 : 0 ≤ a) (hab : a < b)
    (hb : b ≤ l.length) :
    (pySlice l a b).headD 0 = l.getD a.toNat 0 := by
  rw [headD_eq_getD,
    pySlice_getD l a b h0 (by omega) hb 0 (by omega), Nat.add_zero]

lemma idxList_getD (N k : ℕ) (hk : k < N) : (idxList N).getD k 0 = (k : ℚ) := by
  rw [idxList, List.getD_eq_getElem _ 0 (by simpa using hk),
    List.getElem_map, List.getElem_range]

/-- A cubic spline interpolant is exact at its knots: evaluating at the
knot `x0 + k` returns the `k`-th data value (for `k` below the last
knot), independently of the solved second derivatives — the constant
coefficient of the `k`-th cubic piece is the `k`-th data value. -/
lemma splineEvalAt_knot (x0 : ℚ) (ys Ms : List ℚ) (k : ℕ)
    (hk : k + 2 ≤ ys.length) :
    splineEvalAt x0 ys Ms (x0 + (k : ℚ)) = ys.getD k 0 := by
  rw [splineEvalAt, if_neg (by omega)]
  have h1 : x0 + (k : ℚ) - x0 = (k : ℚ) := by ring
  have h2 : ⌊((k : ℕ) : ℚ)⌋ = (k : ℤ) := Int.floor_natCast k
  simp only [h1, h2, Int.toNat_natCast]
  rw [min_eq_left (by omega)]
  ring

/-- The success path of `getSlidingWindow`. -/
lemma getSlidingWindow_pos (x : List ℚ) (dim : ℤ) (Tau dT : ℚ)
    (hdT : dT ≠ 0) (hM : 0 < nWindows x.length dim Tau dT)
    (hdim : 1 ≤ dim) :
    getSlidingWindow x dim Tau dT =
      ⟨[], some (buildRowsAux x dim.toNat Tau dT 0
        (nWindows x.length dim Tau dT).toNat)⟩ := by
  rw [getSlidingWindow, if_neg hdT, if_neg (by omega), if_neg (by omega)]

/-- The degenerate path of `getSlidingWindow`: the error line is
printed and a `3 × dim` zero matrix is returned. -/
lemma getSlidingWindow_degenerate (x : List ℚ) (dim : ℤ) (Tau dT : ℚ)
    (hdT : dT ≠ 0) (hM : nWindows x.length dim Tau dT ≤ 0)
    (hdim : 0 ≤ dim) :
    getSlidingWindow x dim Tau dT =
      ⟨[tauErrMsg], some (zerosMat 3 dim.toNat)⟩ := by
  rw [getSlidingWindow, if_neg hdT, if_pos hM, if_neg (by omega)]

/-- On the success path the returned matrix is a contiguous block of
windows `0, …, k-1`, each with `end < N`, and if `k` is below the
candidate count the window `k` is the one that triggered the break. -/
lemma getSlidingWindow_rows (x : List ℚ) (dim : ℤ) (Tau dT : ℚ)
    (hdT : dT ≠ 0) (hM : 0 < nWindows x.length dim Tau dT)
    (hdim : 1 ≤ dim) :
    ∃ k, k ≤ (nWindows x.length dim Tau dT).toNat ∧
      (getSlidingWindow x dim Tau dT).value.getD [] =
        (List.range k).map (windowRow x dim.toNat Tau dT) ∧
      (∀ m < k, winEnd dim.toNat Tau dT m < (x.length : ℤ)) ∧
      (k < (nWindows x.length dim Tau dT).toNat →
        (x.length : ℤ) ≤ winEnd dim.toNat Tau dT k) := by
  obtain ⟨k, hk, heq, hlt, hstop⟩ :=
    buildRowsAux_spec x dim.toNat Tau dT (nWindows x.length dim Tau dT).toNat 0
  refine ⟨k, hk, ?_, by simpa using hlt, by simpa using hstop⟩
  rw [getSlidingWindow_pos x dim Tau dT hdT hM hdim]
  simpa using heq

/-- A window `i` below the candidate count whose right bound stays
short of the signal end is emitted, and its row is `windowRow i`. -/
lemma emitted_row (x : List ℚ) (dim : ℤ) (Tau dT : ℚ) (i : ℕ)
    (hdT : 0 < dT) (hdim : 1 ≤ dim)
    (hM : 0 < nWindows x.length dim Tau dT)
    (hi : i < (nWindows x.length dim Tau dT).toNat)
    (hend : winEnd dim.toNat Tau dT i < (x.length : ℤ)) :
    i < ((getSlidingWindow x dim Tau dT).value.getD []).length ∧
      ((getSlidingWindow x dim Tau dT).value.getD []).getD i [] =
        windowRow x dim.toNat Tau dT i := by
  obtain ⟨k, hk, heq, hlt, hstop⟩ :=
    getSlidingWindow_rows x dim Tau dT (ne_of_gt hdT) hM hdim
  have hik : i < k := by
    by_contra hik
    have hik2 : k ≤ i := by omega
    have h1 : (x.length : ℤ) ≤ winEnd dim.toNat Tau dT k := hstop (by omega)
    have h2 : winEnd dim.toNat Tau dT k ≤ winEnd dim.toNat Tau dT i :=
      winEnd_mono dim.toNat Tau dT (by omega) hdT hik2
    omega
  constructor
  · rw [heq, List.length_map, List.length_range]
    exact hik
  · rw [heq, List.getD_eq_getElem _ [] (by simpa using hik),
      List.getElem_map, List.getElem_range]

/-! ## Claim C1 -/

/-- C1 (counterexample): with signal `[1, 3, 2]` (length `N = 3`) and
`dim = 1`, `tau = 3`, `dT = 1`, we have `dim*tau = 3 ≥ N` and the
candidate window count is `0`, yet `getSlidingWindow` RETURNS the
zero-filled `3 × 1` placeholder matrix — so the claim that it reports a
typed `InsufficientSignalLength` failure and never returns a zero
matrix is false on the code. -/
theorem C1_counterexample :
    (getSlidingWindow [1, 3, 2] 1 3 1).value = some [[0], [0], [0]] := by
  rw [getSlidingWindow_degenerate ([1, 3, 2] : List ℚ) 1 3 1 (by norm_num)
    (by rw [nWindows]; norm_num) (by norm_num)]
  rfl

/-- C1 (amended): when the candidate window count
`M = ⌊(N - dim*tau)/dT⌋` is `≤ 0` (and `dT ≠ 0`, `dim ≥ 0`),
`getSlidingWindow` does not report a typed failure: it prints the line
`"Error: Tau too large for signal extent"` to stdout and returns a
zero-filled `3 × dim` placeholder matrix as its value. -/
theorem C1_degenerate_prints_and_returns_zeros (x : List ℚ) (dim : ℤ)
    (Tau dT : ℚ) (hdT : dT ≠ 0)
    (hM : nWindows x.length dim Tau dT ≤ 0) (hdim : 0 ≤ dim) :
    getSlidingWindow x dim Tau dT =
      ⟨[tauErrMsg], some (zerosMat 3 dim.toNat)⟩ :=
  getSlidingWindow_degenerate x dim Tau dT hdT hM hdim

/-- C1 (witness): the amended theorem applied at
`x = [1, 3, 2]`, `dim = 1`, `tau = 3`, `dT = 1`. -/
theorem C1_witness :
    (1 : ℚ) ≠ 0 ∧ nWindows ([1, 3, 2] : List ℚ).length 1 3 1 ≤ 0 ∧
      (0 : ℤ) ≤ 1 ∧
      getSlidingWindow [1, 3, 2] 1 3 1 =
        ⟨[tauErrMsg], some (zerosMat 3 (1 : ℤ).toNat)⟩ :=
  ⟨by norm_num, by rw [nWindows]; norm_num, by norm_num,
    C1_degenerate_prints_and_returns_zeros ([1, 3, 2] : List ℚ) 1 3 1
      (by norm_num) (by rw [nWindows]; norm_num) (by norm_num)⟩

/-! ## Claim C3 -/

/-- C3 (counterexample): with signal `[1, 3, 2]` and `dim = 1`,
`tau = 3`, `dT = 1`, the bound `⌊(N - dim*tau)/dT⌋` equals `0`, yet the
returned matrix has `3` rows (the degenerate placeholder), so the
claimed row-count bound fails on that call. -/
theorem C3_counterexample :
    ¬ (((getSlidingWindow [1, 3, 2] 1 3 1).value.getD []).length ≤
        (nWindows ([1, 3, 2] : List ℚ).length 1 3 1).toNat) := by
  rw [getSlidingWindow_degenerate ([1, 3, 2] : List ℚ) 1 3 1 (by norm_num)
    (by rw [nWindows]; norm_num) (by norm_num)]
  have h : nWindows ([1, 3, 2] : List ℚ).length 1 3 1 = 0 := by
    rw [nWindows]; norm_num
  rw [h]
  simp [zerosMat]

/-- C3 (amended): on every call that takes the non-degenerate path
(`dT ≠ 0` and candidate count `M = ⌊(N - dim*tau)/dT⌋ ≥ 1`), the number
of rows of the returned matrix is at least `0` and at most `M`; when
`M ≤ 0` the function instead returns the fixed `3`-row placeholder,
which violates the bound. -/
theorem C3_row_count_bound (x : List ℚ) (dim : ℤ) (Tau dT : ℚ)
    (hdT : dT ≠ 0) (hM : 0 < nWindows x.length dim Tau dT) :
    0 ≤ ((getSlidingWindow x dim Tau dT).value.getD []).length ∧
      ((getSlidingWindow x dim Tau dT).value.getD []).length ≤
        (nWindows x.length dim Tau dT).toNat := by
  refine ⟨Nat.zero_le _, ?_⟩
  by_cases hdim : 1 ≤ dim
  · rw [getSlidingWindow_pos x dim Tau dT hdT hM hdim]
    simpa using buildRowsAux_length_le x dim.toNat Tau dT _ 0
  · rw [getSlidingWindow, if_neg hdT, if_neg (by omega), if_pos (by omega)]
    simp

/-- C3 (witness): the amended theorem applied at
`x = [1, 3, 2, 5, 4, 6, 0, 2]`, `dim = 2`, `tau = 1`, `dT = 1`. -/
theorem C3_witness :
    (1 : ℚ) ≠ 0 ∧
      0 < nWindows ([1, 3, 2, 5, 4, 6, 0, 2] : List ℚ).length 2 1 1 ∧
      ((getSlidingWindow [1, 3, 2, 5, 4, 6, 0, 2] 2 1 1).value.getD
          []).length ≤
        (nWindows ([1, 3, 2, 5, 4, 6, 0, 2] : List ℚ).length 2 1 1).toNat :=
  ⟨by norm_num, by rw [nWindows]; norm_num,
    (C3_row_count_bound ([1, 3, 2, 5, 4, 6, 0, 2] : List ℚ) 2 1 1
      (by norm_num) (by rw [nWindows]; norm_num)).2⟩

/-! ## Claim C5 -/

/-- C5 (counterexample): the call with `tau = 0` (which the claim says
must be rejected as `InvalidParameters` with no computation attempted)
on signal `[1, 3, 2, 5, 4, 6, 0, 2]` with `dim = 2`, `dT = 1` instead
proceeds, prints nothing, and returns a computed matrix. -/
theorem C5_counterexample :
    ((getSlidingWindow [1, 3, 2, 5, 4, 6, 0, 2] 2 0 1).value).isSome =
        true ∧
      (getSlidingWindow [1, 3, 2, 5, 4, 6, 0, 2] 2 0 1).output = [] := by
  rw [getSlidingWindow_pos ([1, 3, 2, 5, 4, 6, 0, 2] : List ℚ) 2 0 1
    (by norm_num) (by rw [nWindows]; norm_num) (by norm_num)]
  exact ⟨rfl, rfl⟩

/-- C5 (amended): `getSlidingWindow` performs no parameter validation
and has no `InvalidParameters` failure: a call with `tau ≤ 0` (invalid
per the claim) still proceeds to the window loop whenever `dT ≠ 0`,
`dim ≥ 1` and the candidate count is positive, printing nothing and
returning a computed matrix. -/
theorem C5_no_parameter_validation (x : List ℚ) (dim : ℤ) (Tau dT : ℚ)
    (hTau : Tau ≤ 0) (hdT : dT ≠ 0) (hdim : 1 ≤ dim)
    (hM : 0 < nWindows x.length dim Tau dT) :
    ((getSlidingWindow x dim Tau dT).value).isSome = true ∧
      (getSlidingWindow x dim Tau dT).output = [] := by
  rw [getSlidingWindow_pos x dim Tau dT hdT hM hdim]
  exact ⟨rfl, rfl⟩

/-- C5 (witness): the amended theorem applied at
`x = [1, 3, 2, 5, 4, 6, 0, 2]`, `dim = 2`, `tau = 0`, `dT = 1`. -/
theorem C5_witness :
    (0 : ℚ) ≤ 0 ∧ (1 : ℚ) ≠ 0 ∧ (1 : ℤ) ≤ 2 ∧
      0 < nWindows ([1, 3, 2, 5, 4, 6, 0, 2] : List ℚ).length 2 0 1 ∧
      ((getSlidingWindow [1, 3, 2, 5, 4, 6, 0, 2] 2 0 1).value).isSome =
        true :=
  ⟨le_refl 0, by norm_num, by norm_num, by rw [nWindows]; norm_num,
    (C5_no_parameter_validation ([1, 3, 2, 5, 4, 6, 0, 2] : List ℚ) 2 0 1
      (le_refl 0) (by norm_num) (by norm_num)
      (by rw [nWindows]; norm_num)).1⟩

/-! ## Claim C8 -/

/-- C8 (counterexample): `getSlidingWindow` is not free of I/O — the
call on `[1, 2, 3, 4]` with `dim = 1`, `tau = 4`, `dT = 1` (candidate
count `0`) prints an error line to stdout. -/
theorem C8_counterexample :
    (getSlidingWindow [1, 2, 3, 4] 1 4 1).output ≠ [] := by
  rw [getSlidingWindow_degenerate ([1, 2, 3, 4] : List ℚ) 1 4 1
    (by norm_num) (by rw [nWindows]; norm_num) (by norm_num)]
  simp

/-- C8 (amended): `getSlidingWindow` is a deterministic function of its
four arguments (it reads no other state, so identical inputs give
identical printed output and identical returned value), but it is not
side-effect free: it prints the error line exactly on the calls with
`dT ≠ 0` and candidate window count `≤ 0`, and prints nothing
otherwise. -/
theorem C8_output_characterisation (x : List ℚ) (dim : ℤ) (Tau dT : ℚ) :
    (getSlidingWindow x dim Tau dT).output =
      if dT ≠ 0 ∧ nWindows x.length dim Tau dT ≤ 0 then [tauErrMsg]
      else [] := by
  by_cases h1 : dT = 0
  · simp [getSlidingWindow, h1]
  · by_cases h2 : nWindows x.length dim Tau dT ≤ 0
    · by_cases h3 : dim < 0 <;> simp [getSlidingWindow, h1, h2, h3]
    · by_cases h3 : dim ≤ 0 <;> simp [getSlidingWindow, h1, h2, h3]

/-! ## Claim C4 -/

/-- C4: if window `i` is the first one whose right padding bound
`end = ⌈p_{dim-1}⌉ + 2` reaches the signal length `N`, the loop stops
and the call succeeds with exactly the `i` rows already computed
(windows `0, …, i-1`) — no failure, no partial or fabricated row. -/
theorem C4_truncation (x : List ℚ) (dim : ℤ) (Tau dT : ℚ) (i : ℕ)
    (hTau : 0 < Tau) (hdT : 0 < dT) (hdim : 1 ≤ dim)
    (hM : 0 < nWindows x.length dim Tau dT)
    (hi : i < (nWindows x.length dim Tau dT).toNat)
    (hend : (x.length : ℤ) ≤ winEnd dim.toNat Tau dT i)
    (hprev : ∀ k < i, winEnd dim.toNat Tau dT k < (x.length : ℤ)) :
    (getSlidingWindow x dim Tau dT).value =
      some ((List.range i).map (windowRow x dim.toNat Tau dT)) := by
  rw [getSlidingWindow_pos x dim Tau dT (ne_of_gt hdT) hM hdim]
  obtain ⟨k, hk, heq, hlt, hstop⟩ :=
    buildRowsAux_spec x dim.toNat Tau dT (nWindows x.length dim Tau dT).toNat 0
  have hki : k = i := by
    rcases Nat.lt_trichotomy k i with h | h | h
    · have h1 := hprev k h
      have h2 := hstop (by omega)
      simp only [Nat.zero_add] at h2
      omega
    · exact h
    · have h1 := hlt i h
      simp only [Nat.zero_add] at h1
      omega
  subst hki
  rw [heq]
  simp

/-- C4 (witness): the theorem applied at
`x = [1, 3, 2, 5, 4, 6, 0, 2]`, `dim = 2`, `tau = 1`, `dT = 1`,
`i = 5`: window `5` needs `end = 8 = N`, so exactly `5` rows are
returned. -/
theorem C4_witness :
    ((0 : ℚ) < 1 ∧ (1 : ℤ) ≤ 2 ∧
      5 < (nWindows ([1, 3, 2, 5, 4, 6, 0, 2] : List ℚ).length 2 1 1).toNat ∧
      (([1, 3, 2, 5, 4, 6, 0, 2] : List ℚ).length : ℤ) ≤
        winEnd (2 : ℤ).toNat 1 1 5 ∧
      (∀ k < 5, winEnd (2 : ℤ).toNat 1 1 k <
        (([1, 3, 2, 5, 4, 6, 0, 2] : List ℚ).length : ℤ))) ∧
    (getSlidingWindow [1, 3, 2, 5, 4, 6, 0, 2] 2 1 1).value =
      some ((List.range 5).map
        (windowRow ([1, 3, 2, 5, 4, 6, 0, 2] : List ℚ) (2 : ℤ).toNat 1 1)) := by
  have hM : 5 < (nWindows ([1, 3, 2, 5, 4, 6, 0, 2] : List ℚ).length 2 1 1).toNat := by
    rw [nWindows]; norm_num
  have hend : (([1, 3, 2, 5, 4, 6, 0, 2] : List ℚ).length : ℤ) ≤
      winEnd (2 : ℤ).toNat 1 1 5 := by
    rw [winEnd_eq _ _ _ _ (by norm_num), ceil_as_floor]
    simp only [show (2 : ℤ).toNat = 2 from rfl]
    norm_num
  have hprev : ∀ k < 5, winEnd (2 : ℤ).toNat 1 1 k <
      (([1, 3, 2, 5, 4, 6, 0, 2] : List ℚ).length : ℤ) := by
    intro k hk
    rw [winEnd_eq _ _ _ _ (by norm_num), ceil_as_floor]
    have h1 : -(1 * (k : ℚ) + 1 * ((((2 : ℤ).toNat : ℕ) : ℚ) - 1)) =
        -((k : ℚ) + 1) := by
      simp only [show (2 : ℤ).toNat = 2 from rfl]
      norm_num
    rw [h1]
    have h2 : ⌊-((k : ℚ) + 1)⌋ = -((k : ℤ) + 1) := by
      rw [show -((k : ℚ) + 1) = ((-((k : ℤ) + 1) : ℤ) : ℚ) by push_cast; ring,
        Int.floor_intCast]
    rw [h2]
    simp only [List.length_cons, List.length_nil]
    omega
  exact ⟨⟨by norm_num, by norm_num, hM, hend, hprev⟩,
    C4_truncation ([1, 3, 2, 5, 4, 6, 0, 2] : List ℚ) 2 1 1 5 (by norm_num)
      (by norm_num) (by norm_num) (by rw [nWindows]; norm_num)
      hM hend hprev⟩

/-! ## Claim C9 -/

/-- C9: on a signal of length `N ≥ 1` with `dim ≥ 1`, `tau > 0`,
`dT > 0`, every signal access made while computing an emitted row of
the window loop uses the slice `[start, end]` with `0 ≤ start` and
`end ≤ N - 1`: the loop breaks before interpolating whenever
`end ≥ N`, and `start = ⌊dT*i⌋ ≥ 0`, so no access is out of bounds. -/
theorem C9_reads_in_bounds (x : List ℚ) (dim : ℤ) (Tau dT : ℚ)
    (hN : 1 ≤ x.length) (hdim : 1 ≤ dim) (hTau : 0 < Tau)
    (hdT : 0 < dT) :
    ∀ fuel i, i < (buildRowsAux x dim.toNat Tau dT 0 fuel).length →
      0 ≤ winStart dim.toNat Tau dT i ∧
        winEnd dim.toNat Tau dT i ≤ (x.length : ℤ) - 1 := by
  intro fuel i hi
  obtain ⟨k, hk, heq, hlt, hstop⟩ :=
    buildRowsAux_spec x dim.toNat Tau dT fuel 0
  rw [heq, List.length_map, List.length_range] at hi
  have hend := hlt i hi
  simp only [Nat.zero_add] at hend
  constructor
  · rw [winStart_eq _ _ _ _ (by omega)]
    apply Int.le_floor.mpr
    push_cast
    positivity
  · omega

/-- C9 (witness): the theorem applied at
`x = [1, 3, 2, 5, 4, 6, 0, 2]`, `dim = 2`, `tau = 1`, `dT = 1`. -/
theorem C9_witness :
    (1 ≤ ([1, 3, 2, 5, 4, 6, 0, 2] : List ℚ).length ∧ (1 : ℤ) ≤ 2 ∧
      (0 : ℚ) < 1) ∧
    (∀ fuel i,
      i < (buildRowsAux ([1, 3, 2, 5, 4, 6, 0, 2] : List ℚ) (2 : ℤ).toNat
        1 1 0 fuel).length →
      0 ≤ winStart (2 : ℤ).toNat 1 1 i ∧
        winEnd (2 : ℤ).toNat 1 1 i ≤
          ((([1, 3, 2, 5, 4, 6, 0, 2] : List ℚ).length : ℤ)) - 1) :=
  ⟨⟨by norm_num, by norm_num, by norm_num⟩,
    C9_reads_in_bounds ([1, 3, 2, 5, 4, 6, 0, 2] : List ℚ) 2 1 1
      (by norm_num) (by norm_num) (by norm_num) (by norm_num)⟩

/-! ## Claim C10 -/

/-- C10: with `tau > 0` and `dT > 0` the per-window right bound
`end_i = ⌈dT*i + tau*(dim-1)⌉ + 2` is nondecreasing in `i`, so stopping
at the first window with `end_i ≥ N` loses no later valid window: the
returned matrix consists of exactly the windows `0, …, k-1` for some
`k ≤ M = ⌊(N - dim*tau)/dT⌋`, every emitted window has `end_i < N`, and
every unemitted candidate window `m` (with `k ≤ m < M`) has
`end_m ≥ N` — a contiguous prefix of the candidate sequence. -/
theorem C10_contiguous_block (x : List ℚ) (dim : ℤ) (Tau dT : ℚ)
    (hdim : 1 ≤ dim) (hTau : 0 < Tau) (hdT : 0 < dT)
    (hM : 0 < nWindows x.length dim Tau dT) :
    (∀ i1 i2 : ℕ, i1 ≤ i2 →
      winEnd dim.toNat Tau dT i1 ≤ winEnd dim.toNat Tau dT i2) ∧
    ∃ k, k ≤ (nWindows x.length dim Tau dT).toNat ∧
      (getSlidingWindow x dim Tau dT).value =
        some ((List.range k).map (windowRow x dim.toNat Tau dT)) ∧
      (∀ m < k, winEnd dim.toNat Tau dT m < (x.length : ℤ)) ∧
      (∀ m, k ≤ m → m < (nWindows x.length dim Tau dT).toNat →
        (x.length : ℤ) ≤ winEnd dim.toNat Tau dT m) := by
  have hmono : ∀ i1 i2 : ℕ, i1 ≤ i2 →
      winEnd dim.toNat Tau dT i1 ≤ winEnd dim.toNat Tau dT i2 :=
    fun i1 i2 h => winEnd_mono dim.toNat Tau dT (by omega) hdT h
  refine ⟨hmono, ?_⟩
  obtain ⟨k, hk, heq, hlt, hstop⟩ :=
    buildRowsAux_spec x dim.toNat Tau dT (nWindows x.length dim Tau dT).toNat 0
  refine ⟨k, hk, ?_, by simpa using hlt, ?_⟩
  · rw [getSlidingWindow_pos x dim Tau dT (ne_of_gt hdT) hM hdim, heq]
    simp
  · intro m hkm hm
    have h1 : (x.length : ℤ) ≤ winEnd dim.toNat Tau dT k := by
      have := hstop (by omega)
      simpa using this
    exact le_trans h1 (hmono k m hkm)

/-- C10 (witness): the theorem applied at
`x = [1, 3, 2, 5, 4, 6, 0, 2]`, `dim = 2`, `tau = 1`, `dT = 1`. -/
theorem C10_witness :
    ((1 : ℤ) ≤ 2 ∧ (0 : ℚ) < 1 ∧
      0 < nWindows ([1, 3, 2, 5, 4, 6, 0, 2] : List ℚ).length 2 1 1) ∧
    (∀ i1 i2 : ℕ, i1 ≤ i2 →
      winEnd (2 : ℤ).toNat 1 1 i1 ≤ winEnd (2 : ℤ).toNat 1 1 i2) :=
  ⟨⟨by norm_num, by norm_num, by rw [nWindows]; norm_num⟩,
    (C10_contiguous_block ([1, 3, 2, 5, 4, 6, 0, 2] : List ℚ) 2 1 1
      (by norm_num) (by norm_num) (by norm_num)
      (by rw [nWindows]; norm_num)).1⟩

/-! ## Claim C7 -/

/-- C7: for every row emitted by the window loop, all `dim` fractional
sample positions `p_j = dT*i + tau*j` lie within `[0, N-1]` (strictly
below `N-1`), and the returned matrix has no partially-filled rows:
every row has exactly `dim` entries. -/
theorem C7_positions_in_range (x : List ℚ) (dim : ℤ) (Tau dT : ℚ)
    (hdim : 1 ≤ dim) (hTau : 0 < Tau) (hdT : 0 < dT)
    (hM : 0 < nWindows x.length dim Tau dT) :
    (∀ r ∈ (getSlidingWindow x dim Tau dT).value.getD [],
      r.length = dim.toNat) ∧
    (∀ i < ((getSlidingWindow x dim Tau dT).value.getD []).length,
      ∀ j < dim.toNat,
        (0 : ℚ) ≤ dT * (i : ℚ) + Tau * (j : ℚ) ∧
          dT * (i : ℚ) + Tau * (j : ℚ) < (x.length : ℚ) - 1) := by
  obtain ⟨k, hk, heq, hlt, hstop⟩ :=
    getSlidingWindow_rows x dim Tau dT (ne_of_gt hdT) hM hdim
  constructor
  · intro r hr
    rw [heq] at hr
    obtain ⟨m, -, rfl⟩ := List.mem_map.mp hr
    exact windowRow_length x dim.toNat Tau dT m
  · intro i hi j hj
    rw [heq, List.length_map, List.length_range] at hi
    have hend := hlt i hi
    have hd : 1 ≤ dim.toNat := by omega
    have hdq : (1 : ℚ) ≤ ((dim.toNat : ℕ) : ℚ) := by exact_mod_cast hd
    have hjq : (j : ℚ) ≤ ((dim.toNat : ℕ) : ℚ) - 1 := by
      have hj2 : (j : ℕ) + 1 ≤ dim.toNat := hj
      have := (Nat.cast_le (α := ℚ)).mpr hj2
      push_cast at this
      linarith
    constructor
    · positivity
    · have h1 : dT * (i : ℚ) + Tau * (j : ℚ) ≤
          dT * (i : ℚ) + Tau * (((dim.toNat : ℕ) : ℚ) - 1) := by
        nlinarith
      have h2 : dT * (i : ℚ) + Tau * (((dim.toNat : ℕ) : ℚ) - 1) ≤
          ((winEnd dim.toNat Tau dT i : ℤ) : ℚ) - 2 := by
        have hceil := Int.le_ceil
          (dT * (i : ℚ) + Tau * (((dim.toNat : ℕ) : ℚ) - 1))
        rw [winEnd_eq dim.toNat Tau dT i hd]
        push_cast
        linarith
      have h3 : ((winEnd dim.toNat Tau dT i : ℤ) : ℚ) ≤ (x.length : ℚ) - 1 := by
        have : winEnd dim.toNat Tau dT i ≤ (x.length : ℤ) - 1 := by omega
        exact_mod_cast this
      linarith

/-- C7 (witness): the theorem applied at
`x = [1, 3, 2, 5, 4, 6, 0, 2]`, `dim = 2`, `tau = 1`, `dT = 1`. -/
theorem C7_witness :
    ((1 : ℤ) ≤ 2 ∧ (0 : ℚ) < 1 ∧
      0 < nWindows ([1, 3, 2, 5, 4, 6, 0, 2] : List ℚ).length 2 1 1) ∧
    (∀ r ∈ (getSlidingWindow [1, 3, 2, 5, 4, 6, 0, 2] 2 1 1).value.getD [],
      r.length = (2 : ℤ).toNat) :=
  ⟨⟨by norm_num, by norm_num, by rw [nWindows]; norm_num⟩,
    (C7_positions_in_range ([1, 3, 2, 5, 4, 6, 0, 2] : List ℚ) 2 1 1
      (by norm_num) (by norm_num) (by norm_num)
      (by rw [nWindows]; norm_num)).1⟩

/-- When the window is in range (`0 ≤ start`, `end < N`), the two
Python slices passed to the interpolation call are the integer knots
`start, …, end` and the signal samples at those indices. -/
lemma windowRow_eq (x : List ℚ) (d : ℕ) (Tau dT : ℚ) (i : ℕ)
    (hs : 0 ≤ winStart d Tau dT i)
    (hse : winStart d Tau dT i ≤ winEnd d Tau dT i + 1)
    (he : winEnd d Tau dT i + 1 ≤ (x.length : ℤ)) :
    windowRow x d Tau dT i =
      splineInterp
        ((List.range (winEnd d Tau dT i + 1 - winStart d Tau dT i).toNat).map
          (fun (m : ℕ) => ((winStart d Tau dT i + (m : ℤ) : ℤ) : ℚ)))
        ((List.range (winEnd d Tau dT i + 1 - winStart d Tau dT i).toNat).map
          (fun (m : ℕ) => x.getD (winStart d Tau dT i + (m : ℤ)).toNat 0))
        (windowPos d Tau dT i) := by
  rw [windowRow]
  have hlen : (idxList x.length).length = x.length := by
    rw [idxList, List.length_map, List.length_range]
  rw [pySlice_eq_map (idxList x.length) _ _ hs hse (by rw [hlen]; omega),
    pySlice_eq_map x _ _ hs hse (by omega)]
  congr 1
  · apply List.map_congr_left
    intro m hm
    rw [List.mem_range] at hm
    have hmN : (winStart d Tau dT i).toNat + m < x.length := by omega
    rw [idxList_getD x.length _ hmN]
    have h2 : (((winStart d Tau dT i).toNat : ℕ) : ℚ) =
        ((winStart d Tau dT i : ℤ) : ℚ) := by
      exact_mod_cast congrArg (fun (z : ℤ) => (z : ℚ)) (Int.toNat_of_nonneg hs)
    push_cast
    rw [h2]
  · apply List.map_congr_left
    intro m hm
    congr 1
    omega

/-! ## Claim C2 -/

/-- C2: every emitted row `i` of the embedding matrix equals the cubic
spline interpolant fitted through the integer-indexed samples
`signal[start..end]` — with `start = ⌊p_0⌋ = ⌊dT*i⌋` and
`end = ⌈p_{dim-1}⌉ + 2 = ⌈dT*i + tau*(dim-1)⌉ + 2` — evaluated at the
`dim` fractional positions `p_j = dT*i + tau*j`, `j = 0, …, dim-1`. -/
theorem C2_row_is_spline (x : List ℚ) (dim : ℤ) (Tau dT : ℚ) (i : ℕ)
    (hdim : 1 ≤ dim) (hTau : 0 < Tau) (hdT : 0 < dT)
    (hM : 0 < nWindows x.length dim Tau dT)
    (hi : i < (nWindows x.length dim Tau dT).toNat)
    (hend : winEnd dim.toNat Tau dT i < (x.length : ℤ)) :
    ((getSlidingWindow x dim Tau dT).value.getD []).getD i [] =
      splineInterp
        ((List.range
            (((⌈dT * (i : ℚ) + Tau * ((dim : ℚ) - 1)⌉ + 2) + 1 -
              ⌊dT * (i : ℚ)⌋).toNat)).map
          (fun (m : ℕ) => ((⌊dT * (i : ℚ)⌋ + (m : ℤ) : ℤ) : ℚ)))
        ((List.range
            (((⌈dT * (i : ℚ) + Tau * ((dim : ℚ) - 1)⌉ + 2) + 1 -
              ⌊dT * (i : ℚ)⌋).toNat)).map
          (fun (m : ℕ) => x.getD (⌊dT * (i : ℚ)⌋ + (m : ℤ)).toNat 0))
        ((List.range dim.toNat).map
          (fun (j : ℕ) => dT * (i : ℚ) + Tau * (j : ℚ))) := by
  have hd : 1 ≤ dim.toNat := by omega
  have hcast : ((dim.toNat : ℕ) : ℚ) = ((dim : ℤ) : ℚ) := by
    rw [← Int.cast_natCast, Int.toNat_of_nonneg (by omega)]
  have hs : 0 ≤ winStart dim.toNat Tau dT i := by
    rw [winStart_eq _ _ _ _ hd]
    apply Int.le_floor.mpr
    push_cast
    positivity
  have hse : winStart dim.toNat Tau dT i ≤ winEnd dim.toNat Tau dT i + 1 := by
    rw [winStart_eq _ _ _ _ hd, winEnd_eq _ _ _ _ hd]
    have h0 : dT * (i : ℚ) ≤ dT * (i : ℚ) + Tau * (((dim.toNat : ℕ) : ℚ) - 1) := by
      have : (1 : ℚ) ≤ ((dim.toNat : ℕ) : ℚ) := by exact_mod_cast hd
      nlinarith
    have h1 := Int.floor_le_ceil (α := ℚ) (dT * (i : ℚ))
    have h2 := Int.ceil_le_ceil h0
    omega
  obtain ⟨-, hrow⟩ := emitted_row x dim Tau dT i hdT hdim hM hi hend
  rw [hrow, windowRow_eq x dim.toNat Tau dT i hs hse (by omega),
    winStart_eq _ _ _ _ hd, winEnd_eq _ _ _ _ hd, hcast]
  rfl

/-- C2 (witness): the theorem applied at
`x = [1, 3, 2, 5, 4, 6, 0, 2]`, `dim = 2`, `tau = 1`, `dT = 1`,
row `i = 2`. -/
theorem C2_witness :
    ((1 : ℤ) ≤ 2 ∧ (0 : ℚ) < 1 ∧
      0 < nWindows ([1, 3, 2, 5, 4, 6, 0, 2] : List ℚ).length 2 1 1 ∧
      2 < (nWindows ([1, 3, 2, 5, 4, 6, 0, 2] : List ℚ).length 2 1 1).toNat ∧
      winEnd (2 : ℤ).toNat 1 1 2 <
        ((([1, 3, 2, 5, 4, 6, 0, 2] : List ℚ).length : ℤ))) ∧
    ((getSlidingWindow [1, 3, 2, 5, 4, 6, 0, 2] 2 1 1).value.getD
        []).getD 2 [] =
      splineInterp
        ((List.range
            (((⌈(1 : ℚ) * ((2 : ℕ) : ℚ) + 1 * (((2 : ℤ) : ℚ) - 1)⌉ + 2) + 1 -
              ⌊(1 : ℚ) * ((2 : ℕ) : ℚ)⌋).toNat)).map
          (fun (m : ℕ) => ((⌊(1 : ℚ) * ((2 : ℕ) : ℚ)⌋ + (m : ℤ) : ℤ) : ℚ)))
        ((List.range
            (((⌈(1 : ℚ) * ((2 : ℕ) : ℚ) + 1 * (((2 : ℤ) : ℚ) - 1)⌉ + 2) + 1 -
              ⌊(1 : ℚ) * ((2 : ℕ) : ℚ)⌋).toNat)).map
          (fun (m : ℕ) =>
            ([1, 3, 2, 5, 4, 6, 0, 2] : List ℚ).getD
              (⌊(1 : ℚ) * ((2 : ℕ) : ℚ)⌋ + (m : ℤ)).toNat 0))
        ((List.range (2 : ℤ).toNat).map
          (fun (j : ℕ) => (1 : ℚ) * ((2 : ℕ) : ℚ) + 1 * (j : ℚ))) := by
  have hend : winEnd (2 : ℤ).toNat 1 1 2 <
      ((([1, 3, 2, 5, 4, 6, 0, 2] : List ℚ).length : ℤ)) := by
    rw [winEnd_eq _ _ _ _ (by norm_num), ceil_as_floor]
    simp only [show (2 : ℤ).toNat = 2 from rfl]
    norm_num
  exact ⟨⟨by norm_num, by norm_num, by rw [nWindows]; norm_num,
      by rw [nWindows]; norm_num, hend⟩,
    C2_row_is_spline ([1, 3, 2, 5, 4, 6, 0, 2] : List ℚ) 2 1 1 2
      (by norm_num) (by norm_num) (by norm_num) (by rw [nWindows]; norm_num)
      (by rw [nWindows]; norm_num) hend⟩

/-- On an all-integer lattice (`tau = a`, `dT = b` positive integers)
every emitted window entry is the exact signal sample: the spline
evaluation point `b*i + a*j` is the knot number `a*j` of the window's
support, where the interpolant's cubic piece takes its constant
coefficient, the sample value. -/
lemma windowRow_lattice (x : List ℚ) (d a b : ℕ) (i j : ℕ)
    (hd : 1 ≤ d) (ha : 1 ≤ a) (hb : 1 ≤ b) (hj : j < d)
    (hend : winEnd d (a : ℚ) (b : ℚ) i < (x.length : ℤ)) :
    (windowRow x d (a : ℚ) (b : ℚ) i).getD j 0 =
      x.getD (b * i + a * j) 0 := by
  have hs_eq : winStart d (a : ℚ) (b : ℚ) i = ((b * i : ℕ) : ℤ) := by
    rw [winStart_eq _ _ _ _ hd,
      show (b : ℚ) * (i : ℚ) = ((b * i : ℕ) : ℚ) from by push_cast; ring,
      Int.floor_natCast]
  have he_eq : winEnd d (a : ℚ) (b : ℚ) i =
      ((b * i + a * (d - 1) : ℕ) : ℤ) + 2 := by
    rw [winEnd_eq _ _ _ _ hd,
      show (b : ℚ) * (i : ℚ) + (a : ℚ) * (((d : ℕ) : ℚ) - 1) =
        ((b * i + a * (d - 1) : ℕ) : ℚ) from by
          push_cast [Nat.cast_sub hd]; ring,
      Int.ceil_natCast]
  have hs : 0 ≤ winStart d (a : ℚ) (b : ℚ) i := by
    rw [hs_eq]; exact Int.natCast_nonneg _
  have hse : winStart d (a : ℚ) (b : ℚ) i ≤ winEnd d (a : ℚ) (b : ℚ) i + 1 := by
    rw [hs_eq, he_eq]
    have : b * i ≤ b * i + a * (d - 1) := Nat.le_add_right _ _
    omega
  have hn : (winEnd d (a : ℚ) (b : ℚ) i + 1 -
      winStart d (a : ℚ) (b : ℚ) i).toNat = a * (d - 1) + 3 := by
    rw [hs_eq, he_eq]; omega
  have haj : a * j + 2 ≤ a * (d - 1) + 3 := by
    have : a * j ≤ a * (d - 1) := Nat.mul_le_mul_left a (by omega)
    omega
  rw [windowRow_eq x d _ _ i hs hse (by omega), splineInterp]
  rw [List.getD_eq_getElem _ 0
    (by rw [List.length_map, windowPos_length]; omega)]
  simp only [List.getElem_map, windowPos, List.getElem_range]
  have hknot : (((List.range (winEnd d (a : ℚ) (b : ℚ) i + 1 -
      winStart d (a : ℚ) (b : ℚ) i).toNat).map
      (fun (m : ℕ) =>
        ((winStart d (a : ℚ) (b : ℚ) i + (m : ℤ) : ℤ) : ℚ))).headD 0) =
      ((b * i : ℕ) : ℚ) := by
    rw [headD_eq_getD, List.getD_eq_getElem _ 0
      (by rw [List.length_map, List.length_range, hn]; omega),
      List.getElem_map, List.getElem_range, hs_eq]
    push_cast
    ring
  rw [hknot,
    show (b : ℚ) * (i : ℚ) + (a : ℚ) * (j : ℚ) =
      ((b * i : ℕ) : ℚ) + ((a * j : ℕ) : ℚ) from by push_cast; ring]
  rw [splineEvalAt_knot _ _ _ (a * j)
    (by rw [List.length_map, List.length_range, hn]; omega)]
  rw [List.getD_eq_getElem _ 0
    (by rw [List.length_map, List.length_range, hn]; omega)]
  rw [List.getElem_map, List.getElem_range]
  congr 1
  rw [hs_eq]
  omega

/-! ## Claim C6 -/

/-- C6: for integer `tau = a ≥ 1` and `dT = b ≥ 1` (so every sample
position `p_j = b*i + a*j` is an integer), every entry `(i, j)` of an
emitted row equals exactly the signal sample at position `b*i + a*j`:
the spline interpolation reduces to direct sample lookup at the knot
points. -/
theorem C6_integer_lattice_lookup (x : List ℚ) (dim : ℤ) (a b : ℕ)
    (i j : ℕ) (hdim : 1 ≤ dim) (ha : 1 ≤ a) (hb : 1 ≤ b)
    (hM : 0 < nWindows x.length dim (a : ℚ) (b : ℚ))
    (hi : i < (nWindows x.length dim (a : ℚ) (b : ℚ)).toNat)
    (hend : winEnd dim.toNat (a : ℚ) (b : ℚ) i < (x.length : ℤ))
    (hj : j < dim.toNat) :
    (((getSlidingWindow x dim (a : ℚ) (b : ℚ)).value.getD []).getD i
        []).getD j 0 =
      x.getD (b * i + a * j) 0 := by
  have hbq : (0 : ℚ) < (b : ℚ) := by exact_mod_cast hb
  obtain ⟨-, hrow⟩ :=
    emitted_row x dim (a : ℚ) (b : ℚ) i hbq hdim hM hi hend
  rw [hrow]
  exact windowRow_lattice x dim.toNat a b i j (by omega) ha hb hj hend

/-- C6 (witness): the theorem applied at
`x = [1, 3, 2, 5, 4, 6, 0, 2]`, `dim = 2`, `tau = 1`, `dT = 1`,
entry `(i, j) = (2, 1)`: the entry is sample `x[3] = 5`. -/
theorem C6_witness :
    ((1 : ℤ) ≤ 2 ∧ 1 ≤ 1 ∧
      0 < nWindows ([1, 3, 2, 5, 4, 6, 0, 2] : List ℚ).length 2 1 1 ∧
      2 < (nWindows ([1, 3, 2, 5, 4, 6, 0, 2] : List ℚ).length 2 1 1).toNat ∧
      winEnd (2 : ℤ).toNat ((1 : ℕ) : ℚ) ((1 : ℕ) : ℚ) 2 <
        ((([1, 3, 2, 5, 4, 6, 0, 2] : List ℚ).length : ℤ)) ∧
      1 < (2 : ℤ).toNat) ∧
    (((getSlidingWindow [1, 3, 2, 5, 4, 6, 0, 2] 2 ((1 : ℕ) : ℚ)
        ((1 : ℕ) : ℚ)).value.getD []).getD 2 []).getD 1 0 =
      ([1, 3, 2, 5, 4, 6, 0, 2] : List ℚ).getD (1 * 2 + 1 * 1) 0 := by
  have hend : winEnd (2 : ℤ).toNat ((1 : ℕ) : ℚ) ((1 : ℕ) : ℚ) 2 <
      ((([1, 3, 2, 5, 4, 6, 0, 2] : List ℚ).length : ℤ)) := by
    rw [winEnd_eq _ _ _ _ (by norm_num), ceil_as_floor]
    simp only [show (2 : ℤ).toNat = 2 from rfl]
    norm_num
  have hM : 0 < nWindows ([1, 3, 2, 5, 4, 6, 0, 2] : List ℚ).length 2
      ((1 : ℕ) : ℚ) ((1 : ℕ) : ℚ) := by
    rw [nWindows]; norm_num
  have hi : 2 < (nWindows ([1, 3, 2, 5, 4, 6, 0, 2] : List ℚ).length 2
      ((1 : ℕ) : ℚ) ((1 : ℕ) : ℚ)).toNat := by
    rw [nWindows]; norm_num
  refine ⟨⟨by norm_num, le_refl 1, by simpa using hM, by simpa using hi,
    hend, by norm_num⟩, ?_⟩
  exact C6_integer_lattice_lookup ([1, 3, 2, 5, 4, 6, 0, 2] : List ℚ) 2 1 1
    2 1 (by norm_num) (le_refl 1) (le_refl 1) hM hi hend (by norm_num)
